import Mathlib

/-!
Shallow embedding of the co-visitation graph engine
(`src/ml-service/app/models/graph_sequencing.py`, class `GraphSequencingModel`)
together with the external collaborators it reads
(`DataFetcher.get_destination_location`, `DataFetcher.get_destination_details`,
the database connection used by `save_to_database` / `load_from_database`).

Modelling conventions:
* Python ints are `ℤ`, Python floats are `ℝ` (exact real arithmetic), float
  division results that stay rational (edge-weight scores) are `ℚ`.
* `float('inf')` is `(⊤ : EReal)`; finite distances are real coercions into
  `EReal`, so `inf <= x`, `1 - inf/50`, `max(0, -inf)` and `x + inf` behave
  exactly as IEEE infinities do in the source.
* A `networkx.DiGraph` is its edge list in insertion order: `successors`,
  node membership and graph truthiness (`not self.graph`, i.e. zero nodes)
  are all derived from that list.  The code never creates isolated nodes,
  and an unbuilt graph (`self.graph is None`) behaves identically to an
  empty one in every modelled operation, so both are the empty edge list
  where only the graph value (not the model state) is in play.
* External I/O (visit history, destination catalog, database) is passed in
  as explicit data: the catalog is a function `ℤ → Option DestDetails`, the
  database outcome is an `Except` value.
* Python `list.sort(key=..., reverse=True)` is a stable descending sort,
  modelled by insertion sort `sortByScoreDesc` below; `pandas.groupby`
  iterates group keys in ascending order and keeps intra-group row order.
-/

/-- One row of the visit-history DataFrame
(columns `user_id`, `destination_id`, `visited_at`). -/
structure VisitRecord where
  user_id : ℤ
  destination_id : ℤ
  visited_at : ℤ
deriving DecidableEq

/-- One directed edge of the co-visitation graph with its `weight` and
`frequency` attributes (`G.add_edge(src, dst, weight=..., frequency=...)`). -/
structure Edge where
  src : ℤ
  dst : ℤ
  weight : ℤ
  frequency : ℤ
deriving DecidableEq

/-- A `networkx.DiGraph` as its edge list in insertion order. -/
abbrev Graph := List Edge

/-- Node membership (`n in G`): a node exists iff some edge touches it
(the code only ever adds nodes through `add_edge`). -/
def hasNode (g : Graph) (n : ℤ) : Bool :=
  g.any (fun e => e.src == n || e.dst == n)

/-- `G.add_edge(src, dst, weight=w, frequency=f)`: updates the attributes in
place if the edge exists, otherwise appends it (networkx keeps adjacency in
insertion order). -/
def addEdge (g : Graph) (src dst weight frequency : ℤ) : Graph :=
  if g.any (fun e => e.src == src && e.dst == dst) then
    g.map (fun e =>
      if e.src == src && e.dst == dst then
        { e with weight := weight, frequency := frequency }
      else e)
  else
    g ++ [{ src := src, dst := dst, weight := weight, frequency := frequency }]

/-- `list(self.graph.successors(n))` in adjacency (insertion) order. -/
def successors (g : Graph) (n : ℤ) : List ℤ :=
  (g.filter (fun e => e.src == n)).map (fun e => e.dst)

/-- Lookup of the edge `src → dst` if present. -/
def findEdge (g : Graph) (src dst : ℤ) : Option Edge :=
  g.find? (fun e => e.src == src && e.dst == dst)

/-- `self.graph[src][dst].get('weight', 1)`. -/
def edgeWeight (g : Graph) (src dst : ℤ) : ℤ :=
  match findEdge g src dst with
  | some e => e.weight
  | none => 1

/-- `self.graph[src][dst].get('frequency', 1)`. -/
def edgeFrequency (g : Graph) (src dst : ℤ) : ℤ :=
  match findEdge g src dst with
  | some e => e.frequency
  | none => 1

/-- Stable insert of a visit record into a list ascending by `visited_at`. -/
def insertByTime (x : VisitRecord) : List VisitRecord → List VisitRecord
  | [] => [x]
  | y :: ys =>
    if x.visited_at ≤ y.visited_at then x :: y :: ys else y :: insertByTime x ys

/-- `user_visits.sort_values('visited_at')` (stable ascending sort by time). -/
def sortByTime (l : List VisitRecord) : List VisitRecord :=
  l.foldr insertByTime []

/-- Insert an integer into a sorted duplicate-free list. -/
def insertUnique (x : ℤ) : List ℤ → List ℤ
  | [] => [x]
  | y :: ys =>
    if x < y then x :: y :: ys
    else if x == y then y :: ys
    else y :: insertUnique x ys

/-- Group keys of `visit_history.groupby('user_id')`: the distinct user ids
in ascending order (pandas sorts group keys). -/
def sortedUsers (h : List VisitRecord) : List ℤ :=
  h.foldr (fun r acc => insertUnique r.user_id acc) []

/-- The rows of one user's group, in original row order (pandas groupby
preserves intra-group order). -/
def userVisits (h : List VisitRecord) (u : ℤ) : List VisitRecord :=
  h.filter (fun r => r.user_id == u)

/-- Consecutive pairs `(destinations[i], destinations[i+1])`. -/
def consecutivePairs (l : List ℤ) : List (ℤ × ℤ) :=
  l.zip l.tail

/-- All consecutive visit pairs, users traversed in groupby order and each
user's visits sorted by `visited_at`. -/
def allPairs (h : List VisitRecord) : List (ℤ × ℤ) :=
  (sortedUsers h).foldr
    (fun u acc =>
      consecutivePairs ((sortByTime (userVisits h u)).map (fun r => r.destination_id)) ++ acc)
    []

/-- `edge_weights[(src, dst)] += 1` on a `defaultdict(int)`: increment the
counter when the key exists, else append it (dict preserves first-seen
key order). -/
def bumpPair (m : List ((ℤ × ℤ) × ℤ)) (k : ℤ × ℤ) : List ((ℤ × ℤ) × ℤ) :=
  if m.any (fun p => p.1 == k) then
    m.map (fun p => if p.1 == k then (p.1, p.2 + 1) else p)
  else
    m ++ [(k, 1)]

/-- The accumulated `edge_weights` dictionary in key insertion order. -/
def edgeWeightCounts (h : List VisitRecord) : List ((ℤ × ℤ) × ℤ) :=
  (allPairs h).foldl bumpPair []

/-- `GraphSequencingModel.build_co_visitation_graph(visit_history, min_weight)`
with the history supplied by the caller (the `visit_history is None` fetch
path is external I/O).  Returns the empty graph when the history has fewer
than 10 rows; otherwise adds an edge for every consecutive-pair counter
that reached `min_weight`. -/
def build_co_visitation_graph (h : List VisitRecord) (min_weight : ℤ) : Graph :=
  if h.length < 10 then []
  else
    ((edgeWeightCounts h).filter (fun p => min_weight ≤ p.2)).foldl
      (fun g p => addEdge g p.1.1 p.1.2 p.2 p.2) []

/-- Distinct node list of a graph, in first-touched order. -/
def nodesList (g : Graph) : List ℤ :=
  g.foldl
    (fun acc e =>
      let acc1 := if acc.contains e.src then acc else acc ++ [e.src]
      if acc1.contains e.dst then acc1 else acc1 ++ [e.dst])
    []

-- Concrete history for spec Scenario 1: three users with sequences
-- [A,B,C], [A,B,D], [A,B,C] where A=1, B=2, C=3, D=4.  Nine rows total.
def scenario1History : List VisitRecord :=
  [⟨1, 1, 1⟩, ⟨1, 2, 2⟩, ⟨1, 3, 3⟩,
   ⟨2, 1, 1⟩, ⟨2, 2, 2⟩, ⟨2, 4, 3⟩,
   ⟨3, 1, 1⟩, ⟨3, 2, 2⟩, ⟨3, 3, 3⟩]

-- Scenario 1 padded to ten rows with a fourth user who has a single visit
-- (a single visit contributes no consecutive pairs).
def scenario1HistoryPadded : List VisitRecord :=
  scenario1History ++ [⟨4, 9, 1⟩]

/-- A suggestion record produced by `suggest_next_places`
(`destination_id`, `score`, `weight`, `frequency`, optional `distance_km`;
the `reason` string is presentation only and carries no data beyond
`frequency`, so it is omitted). -/
structure Suggestion where
  destination_id : ℤ
  score : ℚ
  weight : ℤ
  frequency : ℤ
  distance_km : Option EReal := none

/-- Stable insert for the descending-by-score sort: an element is placed
before the first element whose score does not exceed it, so equal scores
keep their original relative order, exactly like Python's stable
`list.sort(key=..., reverse=True)`. -/
def insertByScore (x : Suggestion) : List Suggestion → List Suggestion
  | [] => [x]
  | y :: ys =>
    if y.score ≤ x.score then x :: y :: ys else y :: insertByScore x ys

/-- `suggestions.sort(key=lambda x: x['score'], reverse=True)`. -/
def sortByScoreDesc (l : List Suggestion) : List Suggestion :=
  l.foldr insertByScore []

/-- `max([...weights...], default=1)`: maximum of a list with a default for
the empty case (Python `max` folds over the list). -/
def listMaxD (l : List ℤ) (dflt : ℤ) : ℤ :=
  match l with
  | [] => dflt
  | x :: xs => xs.foldl max x

/-- `max_weight` in `suggest_next_places`: the maximum `weight` over all
successors of `current` (computed before any exclusion or filtering). -/
def maxSuccWeight (g : Graph) (current : ℤ) : ℤ :=
  listMaxD ((successors g current).map (fun d => edgeWeight g current d)) 1

/-- The suggestion record appended for successor `d` of `current`: scored
`weight / max(max_weight, 1)` (normalized over all successors). -/
def mkSuggestion (g : Graph) (current d : ℤ) : Suggestion :=
  { destination_id := d
    score := (edgeWeight g current d : ℚ) / (max (maxSuccWeight g current) 1 : ℤ)
    weight := edgeWeight g current d
    frequency := edgeFrequency g current d
    distance_km := none }

/-- The suggestion loop body of `suggest_next_places`: successors in
adjacency order, skipping `dest_id in exclude_ids` (a `None`/empty
exclude list excludes nothing, which membership in the empty list already
captures). -/
def baseSuggestions (g : Graph) (current : ℤ) (exclude_ids : List ℤ) :
    List Suggestion :=
  ((successors g current).filter (fun d => !(exclude_ids.contains d))).map
    (mkSuggestion g current)

/-- The scored suggestion list of `suggest_next_places` before distance
filtering, stably sorted descending by score. -/
def rankSuggestions (g : Graph) (current : ℤ) (exclude_ids : List ℤ) :
    List Suggestion :=
  sortByScoreDesc (baseSuggestions g current exclude_ids)

/-- Destination catalog row (`DataFetcher.get_destination_details`): the
`destinations` table columns, nullable except the id. -/
structure DestDetails where
  slug : Option String
  name : Option String
  city : Option String
  category : Option String
  latitude : Option ℝ
  longitude : Option ℝ

/-- The destination catalog collaborator: `none` models both a missing row
and a failed lookup (the fetcher turns its own exceptions into `None`). -/
def Catalog := ℤ → Option DestDetails

/-- `math.radians`. -/
noncomputable def radians (x : ℝ) : ℝ := x * (Real.pi / 180)

/-- The haversine computation of `_calculate_distance` after the guard:
both points converted to radians, `c * 6371` km. -/
noncomputable def haversine (lat1 lng1 lat2 lng2 : ℝ) : ℝ :=
  let rlat1 := radians lat1
  let rlng1 := radians lng1
  let rlat2 := radians lat2
  let rlng2 := radians lng2
  let dlat := rlat2 - rlat1
  let dlng := rlng2 - rlng1
  let a := Real.sin (dlat / 2) ^ 2 +
    Real.cos rlat1 * Real.cos rlat2 * Real.sin (dlng / 2) ^ 2
  let c := 2 * Real.arcsin (Real.sqrt a)
  c * 6371

open scoped Classical

/-- `GraphSequencingModel._calculate_distance(lat1, lng1, lat2, lng2)`:
returns `float('inf')` (here `⊤`) when any argument is falsy — `None` or
exactly `0`/`0.0` — and the haversine distance otherwise.  Arguments are
`Option ℝ` because callers pass nullable catalog coordinates through. -/
noncomputable def calculateDistance (lat1 lng1 lat2 lng2 : Option ℝ) : EReal :=
  if lat1.getD 0 = 0 ∨ lng1.getD 0 = 0 ∨ lat2.getD 0 = 0 ∨ lng2.getD 0 = 0 then
    (⊤ : EReal)
  else
    ((haversine (lat1.getD 0) (lng1.getD 0) (lat2.getD 0) (lng2.getD 0) : ℝ) : EReal)

/-- `round(x, 2)` on a finite float (round to hundredths; Lean's `round`
agrees with Python's except on exact half-way ties, which no claim
exercises). -/
noncomputable def round2R (x : ℝ) : ℝ :=
  ((round (x * 100) : ℤ) : ℝ) / 100

/-- `round(x, 2)` extended to infinities the way Python extends it. -/
noncomputable def round2 (x : EReal) : EReal :=
  if x = (⊤ : EReal) then ⊤
  else if x = (⊥ : EReal) then ⊥
  else ((round2R x.toReal : ℝ) : EReal)

/-- `DataFetcher.get_destination_location`: returns the pair only when the
row exists and both coordinates are truthy (non-null and nonzero). -/
noncomputable def getDestinationLocation (cat : Catalog) (id : ℤ) :
    Option (ℝ × ℝ) :=
  match cat id with
  | none => none
  | some d =>
    match d.latitude, d.longitude with
    | some la, some lo => if la ≠ 0 ∧ lo ≠ 0 then some (la, lo) else none
    | _, _ => none

/-- One step of the distance-filter loop of `suggest_next_places`: fetch the
candidate's location (skipping it when unavailable), compute
`_calculate_distance`, keep the candidate only within `max_distance_km`,
attaching the rounded `distance_km`. -/
noncomputable def distanceAnnotate (cat : Catalog) (cloc : ℝ × ℝ)
    (max_distance_km : ℝ) (sug : Suggestion) : Option Suggestion :=
  match getDestinationLocation cat sug.destination_id with
  | none => none
  | some dloc =>
    let distance := calculateDistance (some cloc.1) (some cloc.2)
      (some dloc.1) (some dloc.2)
    if distance ≤ ((max_distance_km : ℝ) : EReal) then
      some { sug with distance_km := some (round2 distance) }
    else none

/-- `GraphSequencingModel.suggest_next_places`.  The trailing `[:limit]` of
the source is applied twice on the filtered path (`filtered[:limit]` then
`suggestions[:limit]`); taking `limit` twice is taking it once.  The
`try/except` around the filter only guards the external fetches, which the
`Catalog` model makes total. -/
noncomputable def suggest_next_places (g : Graph) (cat : Catalog)
    (current_place_id : ℤ) (limit : ℕ) (exclude_ids : List ℤ)
    (consider_distance : Bool) (max_distance_km : ℝ) : List Suggestion :=
  if g.isEmpty || !(hasNode g current_place_id) then []
  else if (successors g current_place_id).isEmpty then []
  else
    let sorted := rankSuggestions g current_place_id exclude_ids
    if consider_distance = true ∧ (0 : ℝ) < max_distance_km then
      match getDestinationLocation cat current_place_id with
      | none => sorted.take limit
      | some cloc =>
        ((sorted.take (limit * 2)).filterMap
          (distanceAnnotate cat cloc max_distance_km)).take limit
    else sorted.take limit

-- Graph for the C3 counterexample, built from ten visit rows: users 1-3
-- each visited 1 then 2, users 4-5 visited 1 then 3, so the edges are
-- 1→2 (weight 3) and 1→3 (weight 2).
def c3History : List VisitRecord :=
  [⟨1, 1, 1⟩, ⟨1, 2, 2⟩, ⟨2, 1, 1⟩, ⟨2, 2, 2⟩, ⟨3, 1, 1⟩, ⟨3, 2, 2⟩,
   ⟨4, 1, 1⟩, ⟨4, 3, 2⟩, ⟨5, 1, 1⟩, ⟨5, 3, 2⟩]

def c3Graph : Graph := [⟨1, 2, 3, 3⟩, ⟨1, 3, 2, 2⟩]

/-- The trivial catalog with no rows (distance data never requested when
`consider_distance` is false). -/
def emptyCatalog : Catalog := fun _ => none

-- Graph for the C4 counterexample, built from ten visit rows: the pair
-- 1→5 is first seen before 1→3 and both end with weight 2, so node 1's
-- adjacency lists 5 before 3.
def c4History : List VisitRecord :=
  [⟨1, 1, 1⟩, ⟨1, 5, 2⟩, ⟨2, 1, 1⟩, ⟨2, 5, 2⟩, ⟨3, 1, 1⟩, ⟨3, 3, 2⟩,
   ⟨4, 1, 1⟩, ⟨4, 3, 2⟩, ⟨5, 7, 1⟩, ⟨6, 8, 1⟩]

def c4Graph : Graph := [⟨1, 5, 2, 2⟩, ⟨1, 3, 2, 2⟩]

-- Order relation of the descending sort: a later suggestion never scores
-- above an earlier one.
def scoreGE (a b : Suggestion) : Prop := b.score ≤ a.score

/-- Contiguous-sublist test on character lists. -/
def charListInfix : List Char → List Char → Bool
  | needle, [] => needle.isEmpty
  | needle, c :: t => needle.isPrefixOf (c :: t) || charListInfix needle t

/-- Python `needle in hay` on strings: substring containment. -/
def strContains (needle hay : String) : Bool :=
  charListInfix needle.toList hay.toList

/-- Python `str.lower()` (ASCII casing, character by character). -/
def strLower (s : String) : String :=
  ⟨s.data.map Char.toLower⟩

/-- `GraphSequencingModel._destination_matches_category`: case-insensitive
substring match of any allowed category against the destination's catalog
category (`None` category treated as the empty string; unresolvable
destinations never match — the `except` branch returns `False` and the
catalog model already folds lookup failures into `none`). -/
def destinationMatchesCategory (cat : Catalog) (destination_id : ℤ)
    (categories : List String) : Bool :=
  match cat destination_id with
  | none => false
  | some d =>
    let dest_category := strLower (d.category.getD "")
    categories.any (fun c => strContains (strLower c) dest_category)

/-- The category-preference step of `suggest_complete_day`: with a non-empty
allow-list (`if categories:` — `None` and `[]` are both falsy), keep the
matching candidates if any exist, otherwise fall back to the unfiltered
ranked list. -/
def chooseNext (cat : Catalog) (categories : List String)
    (next_places : List Suggestion) : List Suggestion :=
  if !categories.isEmpty then
    let filtered := next_places.filter
      (fun p => destinationMatchesCategory cat p.destination_id categories)
    if !filtered.isEmpty then filtered else next_places
  else next_places

/-- One enriched row of a `suggest_complete_day` result. -/
structure DaySummary where
  destination_id : ℤ
  name : Option String
  slug : Option String
  category : Option String
  city : Option String
deriving DecidableEq

/-- The enrichment loop at the end of `suggest_complete_day`: catalog rows
for each sequence id, skipping ids the catalog cannot resolve. -/
def enrichDay (cat : Catalog) (ids : List ℤ) : List DaySummary :=
  ids.filterMap (fun id =>
    match cat id with
    | none => none
    | some d => some ⟨id, d.name, d.slug, d.category, d.city⟩)

/-- The greedy traversal loop of `suggest_complete_day`: up to
`max_places - 1` iterations, each calling `suggest_next_places` with
`limit=10`, the visited set excluded, and default distance settings
(`consider_distance=True`, `max_distance_km=10`); stops when no candidates
remain.  Returns the ids appended after the start. -/
noncomputable def completeDayLoop (g : Graph) (cat : Catalog)
    (categories : List String) : ℕ → ℤ → List ℤ → List ℤ
  | 0, _, _ => []
  | n + 1, current, visited =>
    let next_places := suggest_next_places g cat current 10 visited true 10
    if next_places.isEmpty then []
    else
      match chooseNext cat categories next_places with
      | [] => []
      | p :: _ =>
        p.destination_id ::
          completeDayLoop g cat categories n p.destination_id
            (visited ++ [p.destination_id])

/-- `GraphSequencingModel.suggest_complete_day`. -/
noncomputable def suggest_complete_day (g : Graph) (cat : Catalog)
    (starting_place_id : ℤ) (categories : List String) (max_places : ℕ) :
    List DaySummary :=
  if g.isEmpty || !(hasNode g starting_place_id) then []
  else
    enrichDay cat
      (starting_place_id ::
        completeDayLoop g cat categories (max_places - 1) starting_place_id
          [starting_place_id])

/-- One enriched destination record inside `optimize_itinerary`
(`{'id', 'name', 'category', 'lat', 'lng'}`). -/
structure OptDest where
  id : ℤ
  name : Option String
  category : Option String
  lat : Option ℝ
  lng : Option ℝ

/-- One day of an optimized itinerary; the `day` label is absent on the
fewer-than-two-destinations early return, which emits `{'places': ...}`
without a `'day'` key. -/
structure ItineraryDay where
  day : Option ℕ
  places : List OptDest

/-- The dictionary returned by `optimize_itinerary`; `optimization_method`
is only present on the full optimization path. -/
structure Itinerary where
  days : List ItineraryDay
  total_distance_km : EReal
  optimization_method : Option String

/-- The enrichment loop at the top of `optimize_itinerary`: ids the catalog
cannot resolve are dropped. -/
def enrichDestinations (cat : Catalog) (ids : List ℤ) : List OptDest :=
  ids.filterMap (fun id =>
    match cat id with
    | none => none
    | some d => some ⟨id, d.name, d.category, d.latitude, d.longitude⟩)

/-- `_calculate_distance(current.get('lat', 0), ..., candidate.get('lng', 0))`:
the keys are always present (possibly `None`), so the stored optional
coordinates are passed straight through. -/
noncomputable def destDistance (a b : OptDest) : EReal :=
  calculateDistance a.lat a.lng b.lat b.lng

/-- `graph_score`: `edge.get('weight', 0) / 10.0` when the direct edge
exists, else 0. -/
noncomputable def graphScore (g : Graph) (cur cand : ℤ) : ℝ :=
  match findEdge g cur cand with
  | some e => (e.weight : ℝ) / 10
  | none => 0

/-- `distance_score = max(0, 1 - (distance / 50.0))` with float-infinity
semantics: an infinite distance gives `max(0, -inf) = 0`. -/
noncomputable def distanceScore (d : EReal) : EReal :=
  max 0 (((1 : ℝ) : EReal) - d / ((50 : ℝ) : EReal))

/-- `score = graph_score * 0.6 + distance_score * 0.4`. -/
noncomputable def combinedScore (g : Graph) (cur cand : OptDest) : EReal :=
  ((graphScore g cur.id cand.id : ℝ) : EReal) * ((0.6 : ℝ) : EReal) +
    distanceScore (destDistance cur cand) * ((0.4 : ℝ) : EReal)

/-- The candidate scan: `best_score` starts at -1 and a candidate wins only
with a strictly greater score, so the earliest maximum is kept. -/
noncomputable def bestNext (g : Graph) (cur : OptDest)
    (remaining : List OptDest) : Option OptDest :=
  (remaining.foldl
    (fun acc cand =>
      if acc.2 < combinedScore g cur cand then (some cand, combinedScore g cur cand)
      else acc)
    ((none : Option OptDest), ((-1 : ℝ) : EReal))).1

/-- `remaining.remove(best_next)`: removes the first element equal to the
chosen candidate. -/
noncomputable def removeFirst (d : OptDest) : List OptDest → List OptDest
  | [] => []
  | x :: xs => if x = d then xs else x :: removeFirst d xs

/-- The inner `while len(day_places) < 4 and remaining` loop: the day starts
with one anchor place, so at most 3 more are appended — the fuel argument
is `4 - len(day_places)`.  Returns the appended places and the leftover
remaining list. -/
noncomputable def growDay (g : Graph) :
    ℕ → OptDest → List OptDest → List OptDest × List OptDest
  | 0, _, remaining => ([], remaining)
  | n + 1, current, remaining =>
    if remaining.isEmpty then ([], remaining)
    else
      match bestNext g current remaining with
      | none => ([], remaining)
      | some best =>
        let grown := growDay g n best (removeFirst best remaining)
        (best :: grown.1, grown.2)

/-- The `for day in range(max_days)` loop: each day pops the first remaining
destination as anchor and grows greedily; stops early when nothing
remains. -/
noncomputable def optimizeDays (g : Graph) :
    ℕ → ℕ → List OptDest → List ItineraryDay
  | 0, _, _ => []
  | n + 1, idx, remaining =>
    match remaining with
    | [] => []
    | current :: rest =>
      let grown := growDay g 3 current rest
      { day := some (idx + 1), places := current :: grown.1 } ::
        optimizeDays g n (idx + 1) grown.2

/-- Sum of consecutive haversine legs within one day's place list. -/
noncomputable def intraDayDistance (places : List OptDest) : EReal :=
  (places.zip places.tail).foldl (fun acc pq => acc + destDistance pq.1 pq.2) 0

/-- The trailing total-distance loop of `optimize_itinerary`: one running
accumulator over all days, adding only consecutive pairs within each day's
place list. -/
noncomputable def totalDistanceLoop (days : List ItineraryDay) : EReal :=
  days.foldl
    (fun acc d =>
      (d.places.zip d.places.tail).foldl (fun a pq => a + destDistance pq.1 pq.2) acc)
    0

/-- `GraphSequencingModel.optimize_itinerary`. -/
noncomputable def optimize_itinerary (g : Graph) (cat : Catalog)
    (destination_ids : List ℤ) (max_days : ℕ) : Itinerary :=
  if g.isEmpty || destination_ids.isEmpty then
    { days := [], total_distance_km := 0, optimization_method := none }
  else
    let destinations := enrichDestinations cat destination_ids
    if destinations.length < 2 then
      { days := [{ day := none, places := destinations }]
        total_distance_km := 0
        optimization_method := none }
    else
      let days := optimizeDays g max_days 0 destinations
      { days := days
        total_distance_km := round2 (totalDistanceLoop days)
        optimization_method := some "graph_and_distance" }

-- Top returned suggestion of the C3 counterexample run.
def c3TopSuggestion : Suggestion := ⟨3, 2/3, 2, 2, none⟩

-- Graph and catalog for the C5 counterexample: node 1 exists (as a target
-- of 2→1) but has no outgoing edges, and the catalog resolves it.
def c5Graph : Graph := [⟨2, 1, 3, 3⟩]

def c5Catalog : Catalog := fun id =>
  if id == 1 then some ⟨some "a", some "A", some "X", some "m", none, none⟩
  else none

-- Latitude offset in degrees that puts two points on the same meridian
-- exactly 10 km apart: radians(c7Delta) * 6371 = 10.
noncomputable def c7Delta : ℝ := 1800 / (6371 * Real.pi)

-- C7 scenario data: destinations 100 and 200 sit on the same meridian,
-- exactly 10 km apart; the graph is non-empty but holds no edge between
-- them (only the unrelated edge 7→8).
noncomputable def c7Catalog : Catalog := fun id =>
  if id = 100 then some ⟨some "x", some "X", some "c", some "t", some 10, some 20⟩
  else if id = 200 then
    some ⟨some "y", some "Y", some "c", some "t", some (10 + c7Delta), some 20⟩
  else none

def c7Graph : Graph := [⟨7, 8, 2, 2⟩]

noncomputable def c7X : OptDest := ⟨100, some "X", some "t", some 10, some 20⟩

noncomputable def c7Y : OptDest :=
  ⟨200, some "Y", some "t", some (10 + c7Delta), some 20⟩

-- Concrete C8 data: node 1 (at a proper location) points to node 2, which
-- sits exactly on the equator (latitude 0).
noncomputable def c8Catalog : Catalog := fun id =>
  if id = 1 then some ⟨none, none, none, none, some 10, some 20⟩
  else if id = 2 then some ⟨none, none, none, none, some 0, some 7⟩
  else none

def c8Graph : Graph := [⟨1, 2, 3, 3⟩]

noncomputable def c8A : OptDest := ⟨1, none, none, some 10, some 20⟩

noncomputable def c8B : OptDest := ⟨2, none, none, some 0, some 7⟩

/-- The `self.stats` dictionary: `build_co_visitation_graph` writes all four
keys, `load_from_database` only `nodes` and `edges`. -/
structure Stats where
  nodes : ℕ
  edges : ℕ
  sequences : Option ℕ
  avg_out_degree : Option ℚ
deriving DecidableEq

/-- The mutable fields of a `GraphSequencingModel` instance touched by the
persistence operations (`self.graph`, `self.stats`); `none` is an unbuilt
graph. -/
structure ModelState where
  graph : Option Graph
  stats : Stats

/-- The edge-loading loop of `load_from_database`: `add_edge` per fetched
row, in result order. -/
def graphFromRows (rows : List (ℤ × ℤ × ℤ × ℤ)) : Graph :=
  rows.foldl (fun g r => addEdge g r.1 r.2.1 r.2.2.1 r.2.2.2) []

/-- `GraphSequencingModel.load_from_database`: the database outcome is an
explicit `Except` input.  Every fallible operation happens before
`self.graph`/`self.stats` are assigned, so a failure returns `False` with
the state untouched. -/
def load_from_database (st : ModelState)
    (db : Except Unit (List (ℤ × ℤ × ℤ × ℤ))) : Bool × ModelState :=
  match db with
  | Except.error _ => (false, st)
  | Except.ok rows =>
    let G := graphFromRows rows
    (true,
      { graph := some G
        stats :=
          { nodes := (nodesList G).length
            edges := G.length
            sequences := none
            avg_out_degree := none } })

/-- `GraphSequencingModel.save_to_database`: returns `False` for a missing
or empty graph (`if not self.graph`), `True` on a successful write, and
`False` when the database raises; the in-memory state is never modified. -/
def save_to_database (st : ModelState) (db : Except Unit Unit) :
    Bool × ModelState :=
  match st.graph with
  | none => (false, st)
  | some g =>
    if g.isEmpty then (false, st)
    else
      match db with
      | Except.error _ => (false, st)
      | Except.ok _ => (true, st)

-- Concrete C10 data: destination 1 is an art museum, destination 2 a
-- restaurant; the ranked candidate list holds both in that order.
def c10Catalog : Catalog := fun id =>
  if id == 1 then some ⟨none, none, none, some "Art Museum", none, none⟩
  else if id == 2 then some ⟨none, none, none, some "Fine Restaurant", none, none⟩
  else none

def c10Ranked : List Suggestion := [⟨1, 1, 2, 2, none⟩, ⟨2, 1, 2, 2, none⟩]

/-- C1 counterexample: the three sequences of Scenario 1 are nine visit rows,
so `build_co_visitation_graph` hits the `len(visit_history) < 10` guard and
returns the empty graph — the claimed edges A→B and B→C do not appear. -/
theorem c1_nine_records_counterexample :
    build_co_visitation_graph scenario1History 2 = ([] : Graph) ∧
    findEdge (build_co_visitation_graph scenario1History 2) 1 2 = none ∧
    findEdge (build_co_visitation_graph scenario1History 2) 2 3 = none := by
  refine ⟨?_, ?_, ?_⟩ <;> decide

/-- C1 amended: once the history meets the ten-row minimum (padding Scenario 1
with a fourth user whose single visit adds no pair), building with
`min_weight = 2` yields exactly the edges A→B with weight 3 and B→C with
weight 2, and B→D (weight 1) is dropped. -/
theorem c1_scenario_with_min_records :
    build_co_visitation_graph scenario1HistoryPadded 2 =
      [⟨1, 2, 3, 3⟩, ⟨2, 3, 2, 2⟩] ∧
    findEdge (build_co_visitation_graph scenario1HistoryPadded 2) 2 4 = none := by
  exact ⟨by decide, by decide⟩

/-- C2: any visit history with fewer than 10 rows produces a graph with no
nodes and no edges, for every `min_weight`, even when some consecutive pair
meets the threshold. -/
theorem c2_under_ten_records_empty_graph
    (h : List VisitRecord) (min_weight : ℤ) (hlen : h.length < 10) :
    build_co_visitation_graph h min_weight = ([] : Graph) ∧
    nodesList (build_co_visitation_graph h min_weight) = [] := by
  have hb : build_co_visitation_graph h min_weight = [] := by
    unfold build_co_visitation_graph
    rw [if_pos hlen]
  exact ⟨hb, by rw [hb]; rfl⟩

/-- C2 witness: Scenario 1's nine rows contain the pair A→B three times
(meeting `min_weight = 2`), yet the returned graph is empty. -/
theorem c2_under_ten_records_empty_graph_witness :
    build_co_visitation_graph scenario1History 2 = ([] : Graph) ∧
    nodesList (build_co_visitation_graph scenario1History 2) = [] :=
  c2_under_ten_records_empty_graph scenario1History 2 (by decide)

/-- C3 counterexample: on the graph with edges 1→2 (weight 3) and 1→3
(weight 2) — reachable by building from `c3History` — excluding
destination 2 leaves a single returned suggestion whose score is 2/3: the
top-ranked score is not 1.0, because the normalizing maximum ranges over
all successors including excluded ones. -/
theorem c3_exclusion_breaks_top_score :
    build_co_visitation_graph c3History 2 = c3Graph ∧
    (suggest_next_places c3Graph emptyCatalog 1 5 [2] false 10).map
        (fun s => (s.destination_id, s.score)) = [(3, 2/3)] ∧
    ((2 : ℚ)/3) ≠ 1 := by
  refine ⟨by decide, ?_, by norm_num⟩
  norm_num [suggest_next_places, rankSuggestions, baseSuggestions, mkSuggestion,
    sortByScoreDesc, insertByScore, successors, maxSuccWeight, listMaxD, edgeWeight,
    edgeFrequency, findEdge, hasNode, c3Graph]

/-- C4 counterexample: on the graph where node 1's adjacency lists 5 before
3 (reachable by building from `c4History`), both successors score 1.0, yet
the result lists destination 5 before destination 3 — the Python sort is
stable, so equal scores keep edge-insertion order, not ascending
destination id. -/
theorem c4_ties_insertion_order :
    build_co_visitation_graph c4History 2 = c4Graph ∧
    (suggest_next_places c4Graph emptyCatalog 1 5 [] false 10).map
        (fun s => (s.destination_id, s.score)) = [(5, 1), (3, 1)] ∧
    (3 : ℤ) < 5 := by
  refine ⟨by decide, ?_, by decide⟩
  norm_num [suggest_next_places, rankSuggestions, baseSuggestions, mkSuggestion,
    sortByScoreDesc, insertByScore, successors, maxSuccWeight, listMaxD, edgeWeight,
    edgeFrequency, findEdge, hasNode, c4Graph]

theorem mem_insertByScore {s x : Suggestion} {l : List Suggestion} :
    s ∈ insertByScore x l ↔ s = x ∨ s ∈ l := by
  induction l with
  | nil => simp [insertByScore]
  | cons y ys ih =>
    by_cases h : y.score ≤ x.score
    · simp [insertByScore, h]
    · simp [insertByScore, h, ih]
      tauto

theorem mem_sortByScoreDesc {s : Suggestion} {l : List Suggestion} :
    s ∈ sortByScoreDesc l ↔ s ∈ l := by
  induction l with
  | nil => simp [sortByScoreDesc]
  | cons y ys ih =>
    simp only [sortByScoreDesc, List.foldr_cons] at ih ⊢
    rw [mem_insertByScore, ih, List.mem_cons]

theorem sorted_insertByScore {x : Suggestion} {l : List Suggestion}
    (hl : l.Sorted scoreGE) : (insertByScore x l).Sorted scoreGE := by
  induction l with
  | nil => simp [insertByScore]
  | cons y ys ih =>
    rw [List.sorted_cons] at hl
    by_cases h : y.score ≤ x.score
    · rw [insertByScore, if_pos h, List.sorted_cons]
      refine ⟨?_, List.sorted_cons.2 hl⟩
      intro b hb
      rcases List.mem_cons.1 hb with hb | hb
      · subst hb; exact h
      · exact le_trans (hl.1 b hb) h
    · rw [insertByScore, if_neg h, List.sorted_cons]
      refine ⟨?_, ih hl.2⟩
      intro b hb
      rcases mem_insertByScore.1 hb with hb | hb
      · subst hb; exact le_of_lt (lt_of_not_le h)
      · exact hl.1 b hb

theorem sorted_sortByScoreDesc (l : List Suggestion) :
    (sortByScoreDesc l).Sorted scoreGE := by
  induction l with
  | nil => simp [sortByScoreDesc]
  | cons y ys ih => exact sorted_insertByScore ih

/-- A stable descending sort leaves a list of equal-score suggestions
untouched. -/
theorem sortByScoreDesc_of_const_score {l : List Suggestion}
    (h : ∀ x ∈ l, ∀ y ∈ l, x.score = y.score) : sortByScoreDesc l = l := by
  induction l with
  | nil => rfl
  | cons y ys ih =>
    have hys : sortByScoreDesc ys = ys := by
      apply ih
      intro x hx z hz
      exact h x (List.mem_cons_of_mem _ hx) z (List.mem_cons_of_mem _ hz)
    show insertByScore y (sortByScoreDesc ys) = y :: ys
    rw [hys]
    cases ys with
    | nil => rfl
    | cons z zs =>
      have : z.score ≤ y.score :=
        le_of_eq (h z (by simp) y (by simp))
      rw [insertByScore, if_pos this]

theorem distanceAnnotate_fields {cat : Catalog} {cloc : ℝ × ℝ} {mk : ℝ}
    {s s' : Suggestion} (h : distanceAnnotate cat cloc mk s = some s') :
    s'.destination_id = s.destination_id ∧ s'.score = s.score ∧
    s'.weight = s.weight := by
  unfold distanceAnnotate at h
  split at h
  · exact absurd h (by simp)
  · simp only at h
    split at h
    · injection h with h'
      subst h'
      exact ⟨rfl, rfl, rfl⟩
    · exact absurd h (by simp)

theorem pairwise_filterMap_annotate {cat : Catalog} {cloc : ℝ × ℝ} {mk : ℝ}
    {l : List Suggestion} (hl : l.Pairwise scoreGE) :
    (l.filterMap (distanceAnnotate cat cloc mk)).Pairwise scoreGE := by
  induction l with
  | nil => simp
  | cons a t ih =>
    rw [List.pairwise_cons] at hl
    rw [List.filterMap_cons]
    cases hfa : distanceAnnotate cat cloc mk a with
    | none => exact ih hl.2
    | some b =>
      rw [List.pairwise_cons]
      refine ⟨?_, ih hl.2⟩
      intro c hc
      obtain ⟨x, hx, hfx⟩ := List.mem_filterMap.1 hc
      have h1 := (distanceAnnotate_fields hfx).2.1
      have h2 := (distanceAnnotate_fields hfa).2.1
      unfold scoreGE
      rw [h1, h2]
      exact hl.1 x hx

/-- Stability of the insertion step: restricted to any single score class,
inserting keeps the element order of plain consing, because an element is
only ever placed after elements of strictly greater score. -/
theorem filter_insertByScore (q : ℚ) (x : Suggestion) (l : List Suggestion) :
    (insertByScore x l).filter (fun s => decide (s.score = q)) =
      (x :: l).filter (fun s => decide (s.score = q)) := by
  induction l with
  | nil => rfl
  | cons y ys ih =>
    by_cases h : y.score ≤ x.score
    · rw [insertByScore, if_pos h]
    · rw [insertByScore, if_neg h]
      have hlt : x.score < y.score := lt_of_not_le h
      by_cases hx : x.score = q <;> by_cases hy : y.score = q
      · exact absurd (hx.trans hy.symm) (ne_of_lt hlt)
      · simp [List.filter_cons, hx, hy, ih]
      · simp [List.filter_cons, hx, hy, ih]
      · simp [List.filter_cons, hx, hy, ih]

/-- Full stability of the descending sort: the subsequence of any fixed
score equals the same subsequence of the input, so every equal-score run
keeps its original relative order. -/
theorem filter_sortByScoreDesc (q : ℚ) (l : List Suggestion) :
    (sortByScoreDesc l).filter (fun s => decide (s.score = q)) =
      l.filter (fun s => decide (s.score = q)) := by
  induction l with
  | nil => rfl
  | cons x t ih =>
    show (insertByScore x (sortByScoreDesc t)).filter _ = _
    rw [filter_insertByScore]
    simp only [List.filter_cons, ih]

/-- The destination ids of any score class of the suggestion loop output
are a subsequence of the successor enumeration. -/
theorem base_class_dest_sublist (g : Graph) (current : ℤ) (exclude : List ℤ)
    (q : ℚ) :
    (((baseSuggestions g current exclude).filter
        (fun s => decide (s.score = q))).map
      (fun s => s.destination_id)).Sublist (successors g current) := by
  unfold baseSuggestions
  rw [List.filter_map, List.map_map]
  have hcomp : ((fun s : Suggestion => s.destination_id) ∘
      mkSuggestion g current) = fun d => d := rfl
  rw [hcomp, List.map_id']
  exact (List.filter_sublist _).trans (List.filter_sublist _)

/-- The distance-filter loop drops candidates but never reorders them, and
preserves each survivor's score and destination id. -/
theorem filterMap_annotate_class_sublist (cat : Catalog) (cloc : ℝ × ℝ)
    (mk : ℝ) (q : ℚ) (l : List Suggestion) :
    (((l.filterMap (distanceAnnotate cat cloc mk)).filter
        (fun s => decide (s.score = q))).map
      (fun s => s.destination_id)).Sublist
      ((l.filter (fun s => decide (s.score = q))).map
        (fun s => s.destination_id)) := by
  induction l with
  | nil => simp
  | cons a t ih =>
    rw [List.filterMap_cons]
    cases hfa : distanceAnnotate cat cloc mk a with
    | none =>
      dsimp only
      by_cases ha : a.score = q
      · simp only [List.filter_cons]
        rw [if_pos (by simp [ha])]
        simp only [List.map_cons]
        exact ih.trans (List.sublist_cons_self _ _)
      · simp only [List.filter_cons]
        rw [if_neg (by simp [ha])]
        exact ih
    | some b =>
      obtain ⟨hbdest, hbscore, _⟩ := distanceAnnotate_fields hfa
      dsimp only
      by_cases ha : a.score = q
      · have hb : b.score = q := hbscore.trans ha
        simp only [List.filter_cons]
        rw [if_pos (by simp [hb]), if_pos (by simp [ha])]
        simp only [List.map_cons]
        rw [hbdest]
        exact List.Sublist.cons₂ _ ih
      · have hb : ¬b.score = q := fun hc => ha (hbscore.symm.trans hc)
        simp only [List.filter_cons]
        rw [if_neg (by simp [hb]), if_neg (by simp [ha])]
        exact ih

/-- Any score class of a truncated ranked list, projected to destination
ids, is a subsequence of the successor enumeration. -/
theorem rank_take_class_sublist (g : Graph) (current : ℤ) (exclude : List ℤ)
    (n : ℕ) (q : ℚ) :
    ((((rankSuggestions g current exclude).take n).filter
        (fun s => decide (s.score = q))).map
      (fun s => s.destination_id)).Sublist (successors g current) := by
  have h1 : (((rankSuggestions g current exclude).take n).filter
      (fun s => decide (s.score = q))).Sublist
      ((rankSuggestions g current exclude).filter
        (fun s => decide (s.score = q))) :=
    List.Sublist.filter _ (List.take_sublist _ _)
  have h2 : (rankSuggestions g current exclude).filter
      (fun s => decide (s.score = q)) =
      (baseSuggestions g current exclude).filter
        (fun s => decide (s.score = q)) :=
    filter_sortByScoreDesc q (baseSuggestions g current exclude)
  refine (List.Sublist.map _ h1).trans ?_
  rw [h2]
  exact base_class_dest_sublist g current exclude q

/-- Same through the distance-filter path. -/
theorem filtered_take_class_sublist (g : Graph) (cat : Catalog)
    (current : ℤ) (exclude : List ℤ) (cloc : ℝ × ℝ) (mk : ℝ)
    (limit : ℕ) (q : ℚ) :
    ((((((rankSuggestions g current exclude).take (limit * 2)).filterMap
          (distanceAnnotate cat cloc mk)).take limit).filter
        (fun s => decide (s.score = q))).map
      (fun s => s.destination_id)).Sublist (successors g current) := by
  refine (List.Sublist.map _
    (List.Sublist.filter _ (List.take_sublist _ _))).trans ?_
  refine (filterMap_annotate_class_sublist cat cloc mk q _).trans ?_
  exact rank_take_class_sublist g current exclude (limit * 2) q

/-- C4 amended: `suggest_next_places` output is always sorted descending by
score (through the exclusion, sorting and distance-filter paths alike), and
the sort is stable: restricting any list to one score class commutes with
sorting, and in every returned suggestion list the destination ids of the
suggestions sharing any given score form a subsequence of the successor
enumeration (edge insertion) order — equal-score ties are never reordered,
in particular not by ascending destination id. -/
theorem c4_sorted_desc_amended :
    (∀ (g : Graph) (cat : Catalog) (current : ℤ) (limit : ℕ)
        (exclude : List ℤ) (cd : Bool) (mk : ℝ),
      (suggest_next_places g cat current limit exclude cd mk).Sorted scoreGE) ∧
    (∀ (q : ℚ) (l : List Suggestion),
      (sortByScoreDesc l).filter (fun s => decide (s.score = q)) =
        l.filter (fun s => decide (s.score = q))) ∧
    (∀ (g : Graph) (cat : Catalog) (current : ℤ) (limit : ℕ)
        (exclude : List ℤ) (cd : Bool) (mk : ℝ) (q : ℚ),
      (((suggest_next_places g cat current limit exclude cd mk).filter
          (fun s => decide (s.score = q))).map
        (fun s => s.destination_id)).Sublist (successors g current)) := by
  refine ⟨?_, filter_sortByScoreDesc, ?_⟩
  · intro g cat current limit exclude cd mk
    have hrank : (rankSuggestions g current exclude).Sorted scoreGE :=
      sorted_sortByScoreDesc _
    simp only [suggest_next_places]
    split
    · exact List.sorted_nil
    · split
      · exact List.sorted_nil
      · split
        · split
          · exact List.Pairwise.sublist (List.take_sublist _ _) hrank
          · exact List.Pairwise.sublist (List.take_sublist _ _)
              (pairwise_filterMap_annotate
                (List.Pairwise.sublist (List.take_sublist _ _) hrank))
        · exact List.Pairwise.sublist (List.take_sublist _ _) hrank
  · intro g cat current limit exclude cd mk q
    simp only [suggest_next_places]
    split
    · simp
    · split
      · simp
      · split
        · split
          · exact rank_take_class_sublist g current exclude limit q
          · exact filtered_take_class_sublist g cat current exclude _ mk limit q
        · exact rank_take_class_sublist g current exclude limit q

theorem init_le_foldl_max : ∀ (l : List ℤ) (a : ℤ), a ≤ l.foldl max a := by
  intro l
  induction l with
  | nil => intro a; exact le_refl a
  | cons b bs ih =>
    intro a
    exact le_trans (le_max_left a b) (ih (max a b))

theorem mem_le_foldl_max : ∀ (l : List ℤ) (a x : ℤ), x ∈ l → x ≤ l.foldl max a := by
  intro l
  induction l with
  | nil => intro a x hx; exact absurd hx (List.not_mem_nil x)
  | cons b bs ih =>
    intro a x hx
    rcases List.mem_cons.1 hx with hx | hx
    · subst hx
      exact le_trans (le_max_right a x) (init_le_foldl_max bs (max a x))
    · exact ih (max a b) x hx

theorem foldl_max_mem : ∀ (l : List ℤ) (a : ℤ), l.foldl max a = a ∨ l.foldl max a ∈ l := by
  intro l
  induction l with
  | nil => intro a; exact Or.inl rfl
  | cons b bs ih =>
    intro a
    rw [List.foldl_cons]
    rcases ih (max a b) with h | h
    · rcases max_choice a b with hm | hm
      · exact Or.inl (by rw [h, hm])
      · exact Or.inr (by rw [h, hm]; exact List.mem_cons_self b bs)
    · exact Or.inr (List.mem_cons_of_mem b h)

theorem le_listMaxD_of_mem {l : List ℤ} {x : ℤ} (hx : x ∈ l) (d : ℤ) :
    x ≤ listMaxD l d := by
  cases l with
  | nil => exact absurd hx (List.not_mem_nil x)
  | cons a as =>
    rcases List.mem_cons.1 hx with h | h
    · subst h; exact init_le_foldl_max as x
    · exact mem_le_foldl_max as a x h

theorem listMaxD_mem {l : List ℤ} (hl : l ≠ []) (d : ℤ) : listMaxD l d ∈ l := by
  cases l with
  | nil => exact absurd rfl hl
  | cons a as =>
    rcases foldl_max_mem as a with h | h
    · rw [listMaxD, h]; exact List.mem_cons_self a as
    · rw [listMaxD]; exact List.mem_cons_of_mem a h

/-- Every successor's weight is bounded by `max_weight`. -/
theorem edgeWeight_le_maxSuccWeight {g : Graph} {current d : ℤ}
    (hd : d ∈ successors g current) :
    edgeWeight g current d ≤ maxSuccWeight g current :=
  le_listMaxD_of_mem (List.mem_map_of_mem (fun x => edgeWeight g current x) hd) 1

/-- Some successor attains `max_weight`. -/
theorem maxSuccWeight_attained {g : Graph} {current : ℤ}
    (h : successors g current ≠ []) :
    ∃ d ∈ successors g current, edgeWeight g current d = maxSuccWeight g current := by
  have hmem : maxSuccWeight g current ∈
      (successors g current).map (fun d => edgeWeight g current d) :=
    listMaxD_mem (by simpa using h) 1
  obtain ⟨d, hd, hw⟩ := List.mem_map.1 hmem
  exact ⟨d, hd, hw⟩

theorem mem_baseSuggestions_shape {g : Graph} {current : ℤ} {exclude : List ℤ}
    {s0 : Suggestion} (h : s0 ∈ baseSuggestions g current exclude) :
    ∃ d ∈ successors g current, s0.destination_id = d ∧
      s0.weight = edgeWeight g current d ∧
      s0.score = (edgeWeight g current d : ℚ) /
        ((max (maxSuccWeight g current) 1 : ℤ) : ℚ) := by
  unfold baseSuggestions at h
  obtain ⟨d, hd, hs⟩ := List.mem_map.1 h
  subst hs
  exact ⟨d, (List.mem_filter.1 hd).1, rfl, rfl, rfl⟩

/-- Score bounds for any suggestion in the loop output, assuming every
successor edge carries a weight of at least 1 (always true for built
graphs, whose weights are counts that reached `min_weight ≥ 1`). -/
theorem baseSuggestions_score_bounds {g : Graph} {current : ℤ}
    {exclude : List ℤ} {s0 : Suggestion}
    (hw : ∀ d ∈ successors g current, 1 ≤ edgeWeight g current d)
    (h : s0 ∈ baseSuggestions g current exclude) :
    0 < s0.score ∧ s0.score ≤ 1 := by
  obtain ⟨d, hd, _, _, hscore⟩ := mem_baseSuggestions_shape h
  have h1 : (1 : ℤ) ≤ edgeWeight g current d := hw d hd
  have hmax : edgeWeight g current d ≤ maxSuccWeight g current :=
    edgeWeight_le_maxSuccWeight hd
  have hmax1 : (1 : ℤ) ≤ maxSuccWeight g current := le_trans h1 hmax
  have hmaxeq : max (maxSuccWeight g current) 1 = maxSuccWeight g current :=
    max_eq_left hmax1
  rw [hscore, hmaxeq]
  have hposQ : (0 : ℚ) < ((maxSuccWeight g current : ℤ) : ℚ) := by
    exact_mod_cast lt_of_lt_of_le zero_lt_one hmax1
  constructor
  · apply div_pos _ hposQ
    exact_mod_cast lt_of_lt_of_le zero_lt_one h1
  · rw [div_le_one hposQ]
    exact_mod_cast hmax

theorem mem_suggest_base {g : Graph} {cat : Catalog} {current : ℤ}
    {limit : ℕ} {exclude : List ℤ} {cd : Bool} {mk : ℝ} {s : Suggestion}
    (h : s ∈ suggest_next_places g cat current limit exclude cd mk) :
    ∃ s0 ∈ baseSuggestions g current exclude,
      s.destination_id = s0.destination_id ∧ s.score = s0.score ∧
      s.weight = s0.weight := by
  simp only [suggest_next_places] at h
  split at h
  · exact absurd h (List.not_mem_nil s)
  · split at h
    · exact absurd h (List.not_mem_nil s)
    · split at h
      · split at h
        · have hs : s ∈ rankSuggestions g current exclude :=
            List.mem_of_mem_take h
          exact ⟨s, mem_sortByScoreDesc.1 hs, rfl, rfl, rfl⟩
        · have hs := List.mem_of_mem_take h
          obtain ⟨x, hx, hfx⟩ := List.mem_filterMap.1 hs
          have hx' : x ∈ rankSuggestions g current exclude :=
            List.mem_of_mem_take hx
          obtain ⟨h1, h2, h3⟩ := distanceAnnotate_fields hfx
          exact ⟨x, mem_sortByScoreDesc.1 hx', h1, h2, h3⟩
      · have hs : s ∈ rankSuggestions g current exclude :=
          List.mem_of_mem_take h
        exact ⟨s, mem_sortByScoreDesc.1 hs, rfl, rfl, rfl⟩

theorem take_eq_cons_head {α : Type} {l t : List α} {n : ℕ} {a : α}
    (h : l.take n = a :: t) : ∃ t', l = a :: t' := by
  cases n with
  | zero => simp at h
  | succ m =>
    cases l with
    | nil => simp at h
    | cons x xs =>
      rw [List.take_succ_cons] at h
      injection h with h1 _
      exact ⟨xs, by rw [h1]⟩

/-- The head of the stable descending sort scores at least every element. -/
theorem sortByScoreDesc_head_max {l t : List Suggestion} {s : Suggestion}
    (h : sortByScoreDesc l = s :: t) :
    ∀ x ∈ l, x.score ≤ s.score := by
  intro x hx
  have hx' : x ∈ s :: t := by rw [← h]; exact mem_sortByScoreDesc.2 hx
  have hsorted : (s :: t).Sorted scoreGE := by
    rw [← h]; exact sorted_sortByScoreDesc l
  rcases List.mem_cons.1 hx' with hx' | hx'
  · subst hx'; exact le_refl _
  · exact (List.sorted_cons.1 hsorted).1 x hx'

/-- With `consider_distance=False` the distance block is skipped. -/
theorem suggest_next_places_nofilter (g : Graph) (cat : Catalog)
    (current : ℤ) (limit : ℕ) (exclude : List ℤ) (mk : ℝ) :
    suggest_next_places g cat current limit exclude false mk =
      if g.isEmpty || !(hasNode g current) then []
      else if (successors g current).isEmpty then []
      else (rankSuggestions g current exclude).take limit := by
  unfold suggest_next_places
  split
  · rfl
  · split
    · rfl
    · rw [if_neg (by simp)]

theorem filter_not_contains_nil (l : List ℤ) :
    l.filter (fun d => !(List.contains ([] : List ℤ) d)) = l := by
  induction l with
  | nil => rfl
  | cons a as ih => simp [List.filter, ih]

/-- C3 amended: every returned suggestion's score is its edge weight divided
by the maximum weight over all successors of the current node (excluded or
filtered ones included), and lies in (0,1] whenever every successor edge
weighs at least 1; the top-ranked score equals exactly 1.0 when nothing is
removed (no exclusions, no distance filtering) — but not in general, since
the normalizing maximum may belong to a removed successor. -/
theorem c3_scores_normalized_amended :
    (∀ (g : Graph) (cat : Catalog) (current : ℤ) (limit : ℕ)
        (exclude : List ℤ) (cd : Bool) (mk : ℝ) (s : Suggestion),
      (∀ d ∈ successors g current, 1 ≤ edgeWeight g current d) →
      s ∈ suggest_next_places g cat current limit exclude cd mk →
      s.weight = edgeWeight g current s.destination_id ∧
      s.score = (s.weight : ℚ) / ((maxSuccWeight g current : ℤ) : ℚ) ∧
      0 < s.score ∧ s.score ≤ 1) ∧
    (∀ (g : Graph) (cat : Catalog) (current : ℤ) (limit : ℕ) (mk : ℝ)
        (s : Suggestion) (rest : List Suggestion),
      (∀ d ∈ successors g current, 1 ≤ edgeWeight g current d) →
      suggest_next_places g cat current limit [] false mk = s :: rest →
      s.score = 1) := by
  constructor
  · intro g cat current limit exclude cd mk s hw hmem
    obtain ⟨s0, hs0, hdid, hscore, hweight⟩ := mem_suggest_base hmem
    obtain ⟨d, hd, hs0did, hs0w, hs0score⟩ := mem_baseSuggestions_shape hs0
    have h1 : (1 : ℤ) ≤ edgeWeight g current d := hw d hd
    have hmax : edgeWeight g current d ≤ maxSuccWeight g current :=
      edgeWeight_le_maxSuccWeight hd
    have hmax1 : (1 : ℤ) ≤ maxSuccWeight g current := le_trans h1 hmax
    have hbounds := baseSuggestions_score_bounds hw hs0
    refine ⟨?_, ?_, ?_, ?_⟩
    · rw [hweight, hdid, hs0did, hs0w]
    · rw [hscore, hweight, hs0score, hs0w, max_eq_left hmax1]
    · rw [hscore]; exact hbounds.1
    · rw [hscore]; exact hbounds.2
  · intro g cat current limit mk s rest hw heq
    rw [suggest_next_places_nofilter] at heq
    split at heq
    · exact absurd heq (by simp)
    · split at heq
      · exact absurd heq (by simp)
      · rename_i hne hsucc
        obtain ⟨t, ht⟩ := take_eq_cons_head heq
        have hbase : baseSuggestions g current [] =
            (successors g current).map (mkSuggestion g current) := by
          unfold baseSuggestions
          rw [filter_not_contains_nil]
        have hsnonempty : successors g current ≠ [] := by
          intro hcontra
          exact hsucc (by rw [hcontra]; rfl)
        obtain ⟨dmax, hdmax, hdw⟩ := maxSuccWeight_attained hsnonempty
        have hmax1 : (1 : ℤ) ≤ maxSuccWeight g current :=
          le_trans (hw dmax hdmax) (by rw [hdw])
        have hmk : mkSuggestion g current dmax ∈ baseSuggestions g current [] := by
          rw [hbase]
          exact List.mem_map_of_mem _ hdmax
        have hmkscore : (mkSuggestion g current dmax).score = 1 := by
          show ((edgeWeight g current dmax : ℚ) /
            ((max (maxSuccWeight g current) 1 : ℤ) : ℚ)) = 1
          rw [max_eq_left hmax1, hdw]
          apply div_self
          have h0 : (0 : ℤ) < maxSuccWeight g current :=
            lt_of_lt_of_le zero_lt_one hmax1
          exact_mod_cast ne_of_gt h0
        have hle : (1 : ℚ) ≤ s.score := by
          have hh := sortByScoreDesc_head_max
            (show sortByScoreDesc (baseSuggestions g current []) = s :: t from ht)
            (mkSuggestion g current dmax) hmk
          rw [hmkscore] at hh
          exact hh
        have hs_mem : s ∈ baseSuggestions g current [] := by
          have : s ∈ rankSuggestions g current [] := by
            rw [ht]; exact List.mem_cons_self s t
          exact mem_sortByScoreDesc.1 this
        have hge := (baseSuggestions_score_bounds hw hs_mem).2
        exact le_antisymm hge hle

/-- Any of the three insufficient-data situations yields an empty
suggestion list, before the distance filter is ever consulted. -/
theorem suggest_next_places_insufficient (g : Graph) (cat : Catalog)
    (current : ℤ) (limit : ℕ) (exclude : List ℤ) (cd : Bool) (mk : ℝ)
    (h : g = [] ∨ hasNode g current = false ∨ successors g current = []) :
    suggest_next_places g cat current limit exclude cd mk = [] := by
  unfold suggest_next_places
  by_cases h1 : (g.isEmpty || !(hasNode g current)) = true
  · rw [if_pos h1]
  · rw [if_neg h1]
    have hsucc : successors g current = [] := by
      rcases h with h | h | h
      · exact absurd (by simp [h]) h1
      · exact absurd (by simp [h]) h1
      · exact h
    rw [if_pos (by simp [hsucc])]

theorem completeDayLoop_nil_of_no_successors {g : Graph} {cat : Catalog}
    {categories : List String} {start : ℤ}
    (hsucc : successors g start = []) :
    ∀ (n : ℕ) (visited : List ℤ),
      completeDayLoop g cat categories n start visited = [] := by
  intro n visited
  cases n with
  | zero => rfl
  | succ m =>
    simp only [completeDayLoop]
    rw [suggest_next_places_insufficient g cat start 10 visited true 10
      (Or.inr (Or.inr hsucc))]
    simp

/-- C3 amended witness: the concrete suggestion returned in the exclusion
scenario satisfies the amended score characterization. -/
theorem c3_scores_normalized_amended_witness :
    c3TopSuggestion.weight = edgeWeight c3Graph 1 c3TopSuggestion.destination_id ∧
    c3TopSuggestion.score =
      (c3TopSuggestion.weight : ℚ) / ((maxSuccWeight c3Graph 1 : ℤ) : ℚ) ∧
    0 < c3TopSuggestion.score ∧ c3TopSuggestion.score ≤ 1 := by
  have heval : suggest_next_places c3Graph emptyCatalog 1 5 [2] false 10 =
      [c3TopSuggestion] := by
    norm_num [suggest_next_places, rankSuggestions, baseSuggestions, mkSuggestion,
      sortByScoreDesc, insertByScore, successors, maxSuccWeight, listMaxD,
      edgeWeight, edgeFrequency, findEdge, hasNode, c3Graph, c3TopSuggestion]
  exact c3_scores_normalized_amended.1 c3Graph emptyCatalog 1 5 [2] false 10
    c3TopSuggestion (by decide)
    (by rw [heval]; exact List.mem_singleton.mpr rfl)

/-- C5 counterexample: with the starting place in the graph but without
outgoing edges, `suggest_complete_day` returns the enriched starting place —
a non-empty list — contradicting the claim that it returns an empty list in
this situation. -/
theorem c5_complete_day_no_successors_nonempty :
    successors c5Graph 1 = [] ∧
    suggest_complete_day c5Graph c5Catalog 1 [] 5 =
      [⟨1, some "A", some "a", some "m", some "X"⟩] ∧
    suggest_complete_day c5Graph c5Catalog 1 [] 5 ≠ [] := by
  have h2 : suggest_complete_day c5Graph c5Catalog 1 [] 5 =
      [⟨1, some "A", some "a", some "m", some "X"⟩] := rfl
  refine ⟨by decide, h2, ?_⟩
  rw [h2]
  simp

/-- C5 amended: `suggest_next_places` returns an empty list whenever the
graph is empty or unbuilt, the current node is absent, or it has no
successors; `suggest_complete_day` returns an empty list when the graph is
empty/unbuilt or the start is absent, but when the start merely lacks
outgoing edges it returns the enriched starting place alone (an empty list
only if the catalog cannot resolve the start); `optimize_itinerary` on an
empty or unbuilt graph returns an itinerary with an empty days list and
zero total distance.  None of these paths can raise: each operation is a
total function in the model. -/
theorem c5_degenerate_inputs_amended :
    (∀ (g : Graph) (cat : Catalog) (current : ℤ) (limit : ℕ)
        (exclude : List ℤ) (cd : Bool) (mk : ℝ),
      g = [] ∨ hasNode g current = false ∨ successors g current = [] →
      suggest_next_places g cat current limit exclude cd mk = []) ∧
    (∀ (g : Graph) (cat : Catalog) (start : ℤ) (categories : List String)
        (max_places : ℕ),
      g = [] ∨ hasNode g start = false →
      suggest_complete_day g cat start categories max_places = []) ∧
    (∀ (g : Graph) (cat : Catalog) (start : ℤ) (categories : List String)
        (max_places : ℕ),
      hasNode g start = true → successors g start = [] →
      suggest_complete_day g cat start categories max_places =
        enrichDay cat [start]) ∧
    (∀ (g : Graph) (cat : Catalog) (ids : List ℤ) (max_days : ℕ),
      g = [] →
      optimize_itinerary g cat ids max_days =
        { days := [], total_distance_km := 0, optimization_method := none }) := by
  refine ⟨suggest_next_places_insufficient, ?_, ?_, ?_⟩
  · intro g cat start categories max_places h
    unfold suggest_complete_day
    rcases h with h | h
    · rw [if_pos (by simp [h])]
    · rw [if_pos (by simp [h])]
  · intro g cat start categories max_places hstart hsucc
    have hgne : g.isEmpty = false := by
      cases g with
      | nil => exact absurd hstart (by simp [hasNode])
      | cons e t => rfl
    unfold suggest_complete_day
    rw [if_neg (by simp [hgne, hstart])]
    rw [completeDayLoop_nil_of_no_successors hsucc]
  · intro g cat ids max_days h
    subst h
    unfold optimize_itinerary
    rw [if_pos (by simp)]

/-- C5 amended witness: the amended behaviors at concrete degenerate
inputs. -/
theorem c5_degenerate_inputs_amended_witness :
    suggest_next_places ([] : Graph) emptyCatalog 1 5 [] true 10 = [] ∧
    suggest_complete_day ([] : Graph) emptyCatalog 1 [] 5 = [] ∧
    suggest_complete_day c5Graph c5Catalog 1 [] 5 = enrichDay c5Catalog [1] ∧
    optimize_itinerary ([] : Graph) emptyCatalog [1] 3 =
      { days := [], total_distance_km := 0, optimization_method := none } :=
  ⟨c5_degenerate_inputs_amended.1 [] emptyCatalog 1 5 [] true 10 (Or.inl rfl),
   c5_degenerate_inputs_amended.2.1 [] emptyCatalog 1 [] 5 (Or.inl rfl),
   c5_degenerate_inputs_amended.2.2.1 c5Graph c5Catalog 1 [] 5
     (by decide) (by decide),
   c5_degenerate_inputs_amended.2.2.2 [] emptyCatalog [1] 3 rfl⟩

theorem foldl_dist_shift (l : List (OptDest × OptDest)) (acc : EReal) :
    l.foldl (fun a pq => a + destDistance pq.1 pq.2) acc =
      acc + l.foldl (fun a pq => a + destDistance pq.1 pq.2) 0 := by
  induction l generalizing acc with
  | nil => simp
  | cons p t ih =>
    rw [List.foldl_cons, List.foldl_cons, ih (acc + destDistance p.1 p.2),
      ih (0 + destDistance p.1 p.2), zero_add, add_assoc]

theorem totalDistanceLoop_eq_sum (days : List ItineraryDay) :
    totalDistanceLoop days =
      (days.map (fun d => intraDayDistance d.places)).sum := by
  have key : ∀ (ds : List ItineraryDay) (acc : EReal),
      ds.foldl
        (fun a d =>
          (d.places.zip d.places.tail).foldl
            (fun a' pq => a' + destDistance pq.1 pq.2) a)
        acc =
      acc + (ds.map (fun d => intraDayDistance d.places)).sum := by
    intro ds
    induction ds with
    | nil => intro acc; simp
    | cons d t ih =>
      intro acc
      rw [List.foldl_cons, ih, foldl_dist_shift, List.map_cons, List.sum_cons,
        add_assoc]
      rfl
  have h := key days 0
  rw [zero_add] at h
  exact h

theorem intraDayDistance_short {places : List OptDest}
    (h : places.length < 2) : intraDayDistance places = 0 := by
  cases places with
  | nil => rfl
  | cons a t =>
    cases t with
    | nil => rfl
    | cons b u => simp only [List.length_cons] at h; omega

theorem round2_zero : round2 0 = 0 := by
  unfold round2
  rw [if_neg (by simp), if_neg (by simp)]
  unfold round2R
  norm_num

/-- C6: the reported `total_distance_km` of every optimized itinerary is
(the rounding of) the sum over its days of the consecutive-pair haversine
legs within each day only — the leg between the last place of one day and
the first place of the next is never included. -/
theorem c6_total_distance_intra_day_only (g : Graph) (cat : Catalog)
    (destination_ids : List ℤ) (max_days : ℕ) :
    (optimize_itinerary g cat destination_ids max_days).total_distance_km =
      round2 (((optimize_itinerary g cat destination_ids max_days).days.map
        (fun d => intraDayDistance d.places)).sum) := by
  unfold optimize_itinerary
  split
  · simp [round2_zero]
  · dsimp only
    split
    · rename_i hlen
      simp only [List.map_cons, List.map_nil, List.sum_cons, List.sum_nil,
        intraDayDistance_short hlen, add_zero, round2_zero]
    · dsimp only
      rw [totalDistanceLoop_eq_sum]

theorem c7Delta_pos : 0 < c7Delta := by
  unfold c7Delta
  positivity

theorem haversine_c7 : haversine 10 20 (10 + c7Delta) 20 = 10 := by
  unfold haversine radians c7Delta
  dsimp only
  have hpi : (0 : ℝ) < Real.pi := Real.pi_pos
  have h1 : (20 : ℝ) * (Real.pi / 180) - 20 * (Real.pi / 180) = 0 := by ring
  rw [h1]
  have h2 : ((10 + 1800 / (6371 * Real.pi)) * (Real.pi / 180) -
      10 * (Real.pi / 180)) / 2 = 5 / 6371 := by
    field_simp
    ring
  rw [h2]
  norm_num [Real.sin_zero]
  rw [Real.sqrt_sq_eq_abs]
  have hy0 : (0 : ℝ) ≤ 5 / 6371 := by norm_num
  have hy2 : (5 : ℝ) / 6371 ≤ Real.pi / 2 := by
    have := Real.pi_gt_three
    linarith
  have hypi : (5 : ℝ) / 6371 ≤ Real.pi := by linarith
  rw [abs_of_nonneg (Real.sin_nonneg_of_nonneg_of_le_pi hy0 hypi)]
  rw [Real.arcsin_sin (by linarith) hy2]
  norm_num

theorem c7_calcDistance :
    calculateDistance (some 10) (some 20) (some (10 + c7Delta)) (some 20) =
      ((10 : ℝ) : EReal) := by
  unfold calculateDistance
  simp only [Option.getD_some]
  rw [if_neg, haversine_c7]
  push_neg
  have hd := c7Delta_pos
  refine ⟨by norm_num, by norm_num, by nlinarith, by norm_num⟩

theorem c7_destDistance : destDistance c7X c7Y = ((10 : ℝ) : EReal) := by
  unfold destDistance c7X c7Y
  exact c7_calcDistance

theorem c7_distanceScore : distanceScore ((10 : ℝ) : EReal) = ((0.8 : ℝ) : EReal) := by
  unfold distanceScore
  have h45 : (1 : ℝ) - 10 / 50 = 0.8 := by norm_num
  rw [← EReal.coe_div, ← EReal.coe_sub, h45]
  rw [max_eq_right]
  rw [← EReal.coe_zero]
  exact EReal.coe_le_coe_iff.2 (by norm_num)

theorem c7_combinedScore : combinedScore c7Graph c7X c7Y = ((0.32 : ℝ) : EReal) := by
  unfold combinedScore
  rw [c7_destDistance, c7_distanceScore]
  have hg : graphScore c7Graph c7X.id c7Y.id = 0 := rfl
  rw [hg]
  rw [← EReal.coe_mul, ← EReal.coe_mul, ← EReal.coe_add]
  norm_num

theorem c7_bestNext : bestNext c7Graph c7X [c7Y] = some c7Y := by
  unfold bestNext
  simp only [List.foldl_cons, List.foldl_nil]
  rw [c7_combinedScore]
  have hcond : ((none : Option OptDest), ((-1 : ℝ) : EReal)).2 <
      ((0.32 : ℝ) : EReal) :=
    EReal.coe_lt_coe_iff.2 (by norm_num)
  rw [if_pos hcond]

theorem c7_growDay : growDay c7Graph 3 c7X [c7Y] = ([c7Y], []) := by
  have hnone : bestNext c7Graph c7Y [] = none := rfl
  simp [growDay, removeFirst, c7_bestNext, hnone]

theorem c7_enrich : enrichDestinations c7Catalog [100, 200] = [c7X, c7Y] := by
  unfold enrichDestinations c7Catalog c7X c7Y
  simp only [List.filterMap_cons, List.filterMap_nil]
  norm_num

theorem c7_days :
    optimizeDays c7Graph 3 0 [c7X, c7Y] = [⟨some 1, [c7X, c7Y]⟩] := by
  simp [optimizeDays, c7_growDay]

theorem c7_total :
    totalDistanceLoop [⟨some 1, [c7X, c7Y]⟩] = ((10 : ℝ) : EReal) := by
  unfold totalDistanceLoop
  simp only [List.foldl_cons, List.foldl_nil, List.zip_cons_cons,
    List.tail_cons, List.zip_nil_right]
  rw [c7_destDistance, zero_add]

theorem round2_coe_ten : round2 ((10 : ℝ) : EReal) = ((10 : ℝ) : EReal) := by
  unfold round2
  rw [if_neg (EReal.coe_ne_top 10), if_neg (EReal.coe_ne_bot 10),
    EReal.toReal_coe]
  unfold round2R
  norm_num

/-- C7: on two catalog-resolvable destinations 10 km apart with no graph
edge between them, `optimize_itinerary` with `max_days=3` puts both in
day 1, the candidate step's combined score is 0.6×0 + 0.4×(1 − 10/50) =
0.32, and the reported total distance is exactly 10 km. -/
theorem c7_two_destinations_scenario :
    ((optimize_itinerary c7Graph c7Catalog [100, 200] 3).days.map
      (fun d => (d.day, d.places.map (fun p => p.id)))) =
        [(some 1, [100, 200])] ∧
    combinedScore c7Graph c7X c7Y = ((0.32 : ℝ) : EReal) ∧
    (optimize_itinerary c7Graph c7Catalog [100, 200] 3).total_distance_km =
      ((10 : ℝ) : EReal) := by
  have hopt : optimize_itinerary c7Graph c7Catalog [100, 200] 3 =
      { days := [⟨some 1, [c7X, c7Y]⟩]
        total_distance_km := ((10 : ℝ) : EReal)
        optimization_method := some "graph_and_distance" } := by
    unfold optimize_itinerary
    rw [if_neg (by decide)]
    dsimp only
    rw [c7_enrich]
    rw [if_neg (by norm_num)]
    rw [c7_days, c7_total, round2_coe_ten]
  refine ⟨?_, c7_combinedScore, ?_⟩
  · rw [hopt]
    simp [c7X, c7Y]
  · rw [hopt]

theorem getLocation_none_of_zero {cat : Catalog} {dest : ℤ} {d : DestDetails}
    (hc : cat dest = some d)
    (hz : d.latitude.getD 0 = 0 ∨ d.longitude.getD 0 = 0) :
    getDestinationLocation cat dest = none := by
  unfold getDestinationLocation
  rw [hc]
  dsimp only
  cases hla : d.latitude with
  | none => rfl
  | some la =>
    cases hlo : d.longitude with
    | none => rfl
    | some lo =>
      rw [hla, hlo] at hz
      simp only [Option.getD_some] at hz
      dsimp only
      rw [if_neg]
      intro hcontra
      rcases hz with hz | hz
      · exact hcontra.1 hz
      · exact hcontra.2 hz

theorem distanceScore_top : distanceScore (⊤ : EReal) = 0 := by
  unfold distanceScore
  have hdiv : (⊤ : EReal) / ((50 : ℝ) : EReal) = ⊤ := by
    apply EReal.top_div_of_pos_ne_top
    · rw [← EReal.coe_zero]
      exact EReal.coe_lt_coe_iff.2 (by norm_num)
    · exact EReal.coe_ne_top 50
  rw [hdiv, EReal.sub_top]
  exact max_eq_left bot_le

theorem calculateDistance_top {lat1 lng1 lat2 lng2 : Option ℝ}
    (h : lat1.getD 0 = 0 ∨ lng1.getD 0 = 0 ∨ lat2.getD 0 = 0 ∨ lng2.getD 0 = 0) :
    calculateDistance lat1 lng1 lat2 lng2 = (⊤ : EReal) := by
  unfold calculateDistance
  rw [if_pos h]

/-- C8: `_calculate_distance` returns infinity whenever any of its four
coordinates is missing or exactly zero; consequently a destination at
latitude or longitude 0 scores 0 on the distance term of
`optimize_itinerary`, and under active distance filtering (positive
`max_distance_km`, current location resolvable) it never appears in
`suggest_next_places` results — the location fetch itself already treats a
zero coordinate as unknown. -/
theorem c8_zero_coordinate_infinite_distance :
    (∀ (lat1 lng1 lat2 lng2 : Option ℝ),
      lat1.getD 0 = 0 ∨ lng1.getD 0 = 0 ∨ lat2.getD 0 = 0 ∨ lng2.getD 0 = 0 →
      calculateDistance lat1 lng1 lat2 lng2 = (⊤ : EReal)) ∧
    (∀ cur cand : OptDest,
      cand.lat.getD 0 = 0 ∨ cand.lng.getD 0 = 0 →
      distanceScore (destDistance cur cand) = 0) ∧
    (∀ (g : Graph) (cat : Catalog) (current : ℤ) (limit : ℕ)
        (exclude : List ℤ) (mk : ℝ) (dest : ℤ) (d : DestDetails),
      0 < mk →
      getDestinationLocation cat current ≠ none →
      cat dest = some d →
      d.latitude.getD 0 = 0 ∨ d.longitude.getD 0 = 0 →
      dest ∉ (suggest_next_places g cat current limit exclude true mk).map
        (fun s => s.destination_id)) := by
  refine ⟨fun lat1 lng1 lat2 lng2 h => calculateDistance_top h, ?_, ?_⟩
  · intro cur cand h
    have htop : destDistance cur cand = (⊤ : EReal) := by
      unfold destDistance
      exact calculateDistance_top (Or.inr (Or.inr h))
    rw [htop, distanceScore_top]
  · intro g cat current limit exclude mk dest d hmk hcur hdest hz hmem
    obtain ⟨s, hs, hsid⟩ := List.mem_map.1 hmem
    obtain ⟨cloc, hcloc⟩ := Option.ne_none_iff_exists'.1 hcur
    simp only [suggest_next_places] at hs
    split at hs
    · exact absurd hs (List.not_mem_nil s)
    · split at hs
      · exact absurd hs (List.not_mem_nil s)
      · rw [if_pos ⟨trivial, hmk⟩, hcloc] at hs
        have hs' := List.mem_of_mem_take hs
        obtain ⟨x, _, hfx⟩ := List.mem_filterMap.1 hs'
        have hxid : s.destination_id = x.destination_id :=
          (distanceAnnotate_fields hfx).1
        unfold distanceAnnotate at hfx
        rw [hxid.symm, hsid] at hfx
        rw [getLocation_none_of_zero hdest hz] at hfx
        exact absurd hfx (by simp)

/-- C8 witness: the infinity guard, the zero distance score, and the
dropped equator destination at concrete inputs. -/
theorem c8_zero_coordinate_infinite_distance_witness :
    calculateDistance (some 0) (some 20) (some 10) (some 20) = (⊤ : EReal) ∧
    distanceScore (destDistance c8A c8B) = 0 ∧
    (2 : ℤ) ∉ (suggest_next_places c8Graph c8Catalog 1 5 [] true 10).map
      (fun s => s.destination_id) := by
  refine ⟨?_, ?_, ?_⟩
  · exact c8_zero_coordinate_infinite_distance.1 (some 0) (some 20) (some 10)
      (some 20) (Or.inl (by norm_num))
  · exact c8_zero_coordinate_infinite_distance.2.1 c8A c8B
      (Or.inl (by simp [c8B]))
  · apply c8_zero_coordinate_infinite_distance.2.2 c8Graph c8Catalog 1 5 [] 10 2
      ⟨none, none, none, none, some 0, some 7⟩ (by norm_num)
    · intro hcontra
      rw [show getDestinationLocation c8Catalog 1 = some (10, 20) from ?_] at hcontra
      · exact absurd hcontra (by simp)
      · unfold getDestinationLocation c8Catalog
        norm_num
    · norm_num [c8Catalog]
    · exact Or.inl (by norm_num)

/-- C9: both persistence operations surface failure as the boolean `False`
rather than an exception (they are total functions of the database
outcome), a failed load leaves `self.graph` and `self.stats` exactly as
they were, and a save — successful or not — never modifies the in-memory
state. -/
theorem c9_persistence_failure_safe :
    (∀ (st : ModelState) (e : Unit),
      load_from_database st (Except.error e) = (false, st)) ∧
    (∀ (st : ModelState) (e : Unit),
      (save_to_database st (Except.error e)).1 = false) ∧
    (∀ (st : ModelState) (db : Except Unit Unit),
      (save_to_database st db).2 = st) := by
  refine ⟨fun st e => rfl, ?_, ?_⟩
  · intro st e
    unfold save_to_database
    cases st.graph with
    | none => rfl
    | some g =>
      dsimp only
      split
      · rfl
      · rfl
  · intro st db
    unfold save_to_database
    cases st.graph with
    | none => rfl
    | some g =>
      dsimp only
      split
      · rfl
      · cases db with
        | error e => rfl
        | ok u => rfl

theorem chooseNext_ne_nil (cat : Catalog) (categories : List String)
    {ranked : List Suggestion} (h : ranked ≠ []) :
    chooseNext cat categories ranked ≠ [] := by
  unfold chooseNext
  split
  · dsimp only
    split
    · rename_i hf
      intro hcontra
      rw [hcontra] at hf
      simp at hf
    · exact h
  · exact h

/-- C10: with a non-empty category allow-list, the greedy step keeps the
ranked candidates whose catalog category contains one of the allowed
strings (case-insensitive substring match), preserving rank order; when no
ranked candidate matches, it falls back to the unfiltered ranked list — so
whenever `suggest_next_places` returned any candidate, the day composer
appends one rather than ending the day. -/
theorem c10_category_filter_fallback :
    (∀ (cat : Catalog) (categories : List String) (ranked : List Suggestion),
      categories ≠ [] →
      ((∃ p ∈ ranked,
          destinationMatchesCategory cat p.destination_id categories = true) →
        chooseNext cat categories ranked =
          ranked.filter
            (fun p => destinationMatchesCategory cat p.destination_id categories)) ∧
      ((∀ p ∈ ranked,
          destinationMatchesCategory cat p.destination_id categories = false) →
        chooseNext cat categories ranked = ranked)) ∧
    (∀ (cat : Catalog) (id : ℤ) (categories : List String),
      destinationMatchesCategory cat id categories = true ↔
        ∃ d, cat id = some d ∧ ∃ c ∈ categories,
          strContains (strLower c) (strLower (d.category.getD "")) = true) ∧
    (∀ (g : Graph) (cat : Catalog) (categories : List String) (n : ℕ)
        (current : ℤ) (visited : List ℤ),
      suggest_next_places g cat current 10 visited true 10 ≠ [] →
      completeDayLoop g cat categories (n + 1) current visited ≠ []) := by
  refine ⟨?_, ?_, ?_⟩
  · intro cat categories ranked hne
    have hcond : (!categories.isEmpty) = true := by
      cases categories with
      | nil => exact absurd rfl hne
      | cons c cs => rfl
    constructor
    · intro ⟨p, hp, hmatch⟩
      unfold chooseNext
      rw [if_pos hcond]
      dsimp only
      rw [if_pos]
      have : p ∈ ranked.filter
          (fun q => destinationMatchesCategory cat q.destination_id categories) :=
        List.mem_filter.2 ⟨hp, hmatch⟩
      cases hf : ranked.filter
          (fun q => destinationMatchesCategory cat q.destination_id categories) with
      | nil => rw [hf] at this; exact absurd this (List.not_mem_nil p)
      | cons a t => rfl
    · intro hnone
      unfold chooseNext
      rw [if_pos hcond]
      dsimp only
      rw [if_neg]
      have hf : ranked.filter
          (fun q => destinationMatchesCategory cat q.destination_id categories) = [] := by
        rw [List.filter_eq_nil_iff]
        intro a ha
        rw [hnone a ha]
        simp
      rw [hf]
      simp
  · intro cat id categories
    unfold destinationMatchesCategory
    cases hc : cat id with
    | none => simp
    | some d =>
      dsimp only
      rw [List.any_eq_true]
      constructor
      · intro ⟨c, hc', hs⟩
        exact ⟨d, rfl, c, hc', hs⟩
      · intro ⟨d', hd', c, hc', hs⟩
        injection hd' with hd'
        subst hd'
        exact ⟨c, hc', hs⟩
  · intro g cat categories n current visited hne
    simp only [completeDayLoop]
    rw [if_neg (by simpa using hne)]
    cases hcn : chooseNext cat categories
        (suggest_next_places g cat current 10 visited true 10) with
    | nil => exact absurd hcn (chooseNext_ne_nil cat categories hne)
    | cons p t => simp

/-- C10 witness: with allow-list ["restaurant"] the matching candidate is
preferred; with allow-list ["zoo"] nothing matches and the unfiltered
ranked list is kept. -/
theorem c10_category_filter_fallback_witness :
    chooseNext c10Catalog ["restaurant"] c10Ranked =
      c10Ranked.filter
        (fun p => destinationMatchesCategory c10Catalog p.destination_id
          ["restaurant"]) ∧
    chooseNext c10Catalog ["zoo"] c10Ranked = c10Ranked :=
  ⟨((c10_category_filter_fallback.1 c10Catalog ["restaurant"] c10Ranked
      (by decide)).1 (by decide)),
   ((c10_category_filter_fallback.1 c10Catalog ["zoo"] c10Ranked
      (by decide)).2 (by decide))⟩
